import Mathlib

/-!
Verification of the slot availability and booking conflict engine of the
gharieni-booking repository (Next.js + Firestore event booking app).

The embedding models, as pure Lean functions over explicit stores:

* JavaScript string primitives used by the code (trim, toLowerCase,
  padStart, string truthiness) at the character-list level;
* the slot generator `generateTimeSlots` of src/app/admin/login/page.tsx,
  whose for-loop is modelled with explicit fuel since for a non-positive
  duration the JS loop does not terminate;
* the Firestore query helpers of src/lib/firestore.ts over a booking store
  modelled as a list of records (document ids and createdAt timestamps are
  omitted: no property below concerns them, and Firestore documents are
  otherwise exactly these fields);
* the booking page logic of src/app/book/page.tsx: the per-device
  selection state handlers, the availability projector built by loadEvent,
  and the validate-then-commit path handleBooking;
* the admin dashboard's handleDeleteEvent flow.
-/

/-! ## JavaScript string primitives -/

/-- Whitespace class of JS regular expressions and String.prototype.trim,
restricted to the ASCII range (tab, LF, VT, FF, CR, space). -/
def jsWs (c : Char) : Bool :=
  c.toNat == 9 || c.toNat == 10 || c.toNat == 11 || c.toNat == 12 ||
    c.toNat == 13 || c.toNat == 32

/-- Character-list form of String.prototype.trim: drop trailing whitespace
(via reverse), then leading whitespace. -/
def trimList (l : List Char) : List Char :=
  List.dropWhile jsWs ((List.dropWhile jsWs l.reverse).reverse)

/-- Model of JS String.prototype.trim. -/
def jsTrim (s : String) : String :=
  String.mk (trimList s.data)

/-- Model of JS String.prototype.toLowerCase (ASCII range). -/
def jsToLower (s : String) : String :=
  String.mk (s.data.map Char.toLower)

/-- Truthiness of a JS string: the empty string is falsy. -/
def truthyStr (s : String) : Bool :=
  !s.data.isEmpty

/-- Truthiness of a nullable JS string: null/undefined and the empty
string are falsy. -/
def truthy : Option String → Bool
  | none => false
  | some s => truthyStr s

/-- Model of JS String.prototype.padStart(2, the character 0). -/
def jsPadStart2 (s : String) : String :=
  if s.data.length ≥ 2 then s
  else String.mk (List.replicate (2 - s.data.length) '0' ++ s.data)

/-- Split a character list on a separator character; mirrors the behaviour
of JS String.prototype.split with a single-character separator (always at
least one part, adjacent separators give empty parts). -/
def splitOnCharList (sep : Char) : List Char → List (List Char)
  | [] => [[]]
  | c :: rest =>
    let r := splitOnCharList sep rest
    if c = sep then [] :: r
    else
      match r with
      | h :: t => (c :: h) :: t
      | [] => [[c]]

/-- Decision procedure for the email regular expression of handleBooking
(one or more non-whitespace non-at characters, an at sign, the same, a
dot, the same, anchored at both ends): exactly one at sign, no whitespace,
a non-empty part before the at sign, and a dot strictly inside the domain
part. -/
def emailOk (s : String) : Bool :=
  match splitOnCharList '@' s.data with
  | [lp, dp] =>
    !lp.isEmpty && !dp.isEmpty && lp.all (fun c => !jsWs c) &&
      dp.all (fun c => !jsWs c) && ((dp.drop 1).dropLast).contains '.'
  | _ => false

/-- Characters allowed by the phone regular expression of handleBooking:
digits, whitespace, hyphen, plus, parentheses. -/
def phoneCharOk (c : Char) : Bool :=
  c.isDigit || jsWs c || c == '-' || c == '+' || c == '(' || c == ')'

/-- Phone validation of handleBooking: the phone regular expression (one
or more allowed characters) plus at least ten digits after stripping
non-digits. -/
def phoneOk (s : String) : Bool :=
  !s.data.isEmpty && s.data.all phoneCharOk &&
    (s.data.filter Char.isDigit).length ≥ 10

/-! ## Slot generator (generateTimeSlots, src/app/admin/login/page.tsx) -/

/-- One slot label of generateTimeSlots: Math.floor(minutes / 60) and the
JS remainder minutes % 60 (floor division and truncated remainder on
possibly negative values), each rendered with toString().padStart(2, the
character 0), joined by a colon. -/
def slotLabel (minutes : Int) : String :=
  jsPadStart2 (toString (Int.fdiv minutes 60)) ++ ":" ++
    jsPadStart2 (toString (Int.tmod minutes 60))

/-- Fuel-indexed model of the for-loop of generateTimeSlots, which starts
at startMinutes (startHour * 60 + startMin parsed from the HH:MM string)
and adds duration while strictly below endMinutes. The JS loop need not
terminate (duration ≤ 0 with start < end); `none` means the given number
of iterations did not complete the loop, so the loop's total behaviour is
the supremum over all fuels. -/
def generateTimeSlotsFuel : Nat → Int → Int → Int → Option (List String)
  | 0, _, _, _ => none
  | fuel + 1, minutes, endMinutes, duration =>
    if minutes < endMinutes then
      (generateTimeSlotsFuel fuel (minutes + duration) endMinutes duration).map
        (fun rest => slotLabel minutes :: rest)
    else some []

/-- Modelled from the spec: the zero-padded 24-hour HH:MM rendering of a
minute-of-day value, written in closed form with explicit digit
characters; the slot-generator claims compare the code's labels against
this rendering. -/
def hhmm (m : Nat) : String :=
  String.mk [Nat.digitChar (m / 60 / 10), Nat.digitChar (m / 60 % 10), ':',
    Nat.digitChar (m % 60 / 10), Nat.digitChar (m % 60 % 10)]

/-- Closed form for the slot list: ceil((e - s) / d) labels, the k-th at
s + k * d minutes. -/
def slotClosedForm (s e d : Nat) : List String :=
  (List.range ((e - s + d - 1) / d)).map (fun k => slotLabel (Int.ofNat (s + k * d)))

/-! ## Data model (src/types/index.ts) -/

/-- Booking record as stored in the bookings collection (document id and
createdAt omitted; note is optional). -/
structure Booking where
  eventId : String
  deviceId : String
  slotTime : String
  date : String
  name : String
  email : String
  phone : String
  note : Option String
deriving DecidableEq, Repr

/-- Event record as stored in the events collection (document id included
since events are looked up by id; createdAt, description, companyLogo and
location omitted: no property below concerns them). -/
structure Event where
  id : String
  title : String
  eventDates : List String
  slotDuration : Int
  availableSlots : List String
  deviceIds : List String
  enabled : Bool
deriving DecidableEq, Repr

/-- Contact form state of the booking page. -/
structure BookingForm where
  name : String
  email : String
  phone : String
  note : String
  confirmedArrival : Bool
deriving DecidableEq, Repr

/-- Per-device date/slot choice held in selectedDeviceBookings (each field
nullable, as in the page state). -/
structure DeviceSel where
  date : Option String
  slot : Option String
deriving DecidableEq, Repr

/-! ## Firestore query helpers (src/lib/firestore.ts) -/

/-- getEventById: document lookup by id in the events collection. -/
def getEventById (events : List Event) (eventId : String) : Option Event :=
  events.find? (fun e => e.id == eventId)

/-- getBookingBySlot: first booking matching eventId, date, slotTime, and
deviceId when that argument is provided and truthy (the JS code adds the
deviceId condition only under an if (deviceId) guard). -/
def getBookingBySlot (store : List Booking) (eventId date slotTime : String)
    (deviceId : Option String) : Option Booking :=
  store.find? (fun b =>
    b.eventId == eventId && b.date == date && b.slotTime == slotTime &&
      (match deviceId with
       | some d => if truthyStr d then b.deviceId == d else true
       | none => true))

/-- getBookingByUserAtSlot: for the event at the exact date and slot,
first query by email (lower-cased and trimmed), then by phone (trimmed);
each branch runs only when its argument is provided and truthy. -/
def getBookingByUserAtSlot (store : List Booking) (eventId date slotTime : String)
    (email phone : Option String) : Option Booking :=
  let byEmail :=
    match email with
    | some e =>
      if truthyStr e then
        store.find? (fun b =>
          b.eventId == eventId && b.date == date && b.slotTime == slotTime &&
            b.email == jsTrim (jsToLower e))
      else none
    | none => none
  match byEmail with
  | some b => some b
  | none =>
    match phone with
    | some p =>
      if truthyStr p then
        store.find? (fun b =>
          b.eventId == eventId && b.date == date && b.slotTime == slotTime &&
            b.phone == jsTrim p)
      else none
    | none => none

/-- createBooking: addDoc appends a new document to the bookings
collection. -/
def createBooking (store : List Booking) (b : Booking) : List Booking :=
  store ++ [b]

/-- deleteEvent: deleteDoc removes the event document (and nothing
else). -/
def deleteEvent (events : List Event) (eventId : String) : List Event :=
  events.filter (fun e => e.id != eventId)

/-! ## Availability projector (loadEvent and getAvailableSlotsForDate,
src/app/book/page.tsx) -/

/-- Taken-slot index built by loadEvent: the bookedSlots map is
initialised with every event date and every event device, then each
booking with a truthy deviceId whose date and device have entries
contributes its slotTime; reads outside the initialised keys fall back to
the empty set. -/
def bookedSetFor (ev : Event) (bookings : List Booking) (date deviceId : String) :
    List String :=
  if ev.eventDates.contains date then
    if ev.deviceIds.contains deviceId then
      (bookings.filter (fun b =>
        truthyStr b.deviceId && b.date == date && b.deviceId == deviceId)).map
        (fun b => b.slotTime)
    else []
  else []

/-- getAvailableSlotsForDate: empty for a falsy device id, otherwise the
event's availableSlots minus the taken set for that date and device. -/
def getAvailableSlotsForDate (ev : Event) (bookings : List Booking)
    (date deviceId : String) : List String :=
  if !truthyStr deviceId then []
  else ev.availableSlots.filter
    (fun slot => !(bookedSetFor ev bookings date deviceId).contains slot)

/-- Modelled from the spec: the taken set for a date and device is the
slotTimes of the bookings at exactly that date and device. -/
def takenSlots (bookings : List Booking) (date deviceId : String) : List String :=
  (bookings.filter (fun b => b.date == date && b.deviceId == deviceId)).map
    (fun b => b.slotTime)

/-! ## Selection state handlers (src/app/book/page.tsx) -/

/-- Booking-page selection state: the ordered list of selected device ids,
the per-device date/slot record (a partial map, none meaning the key is
absent), and the legacy single date/slot fields the handlers reset. -/
structure SelState where
  ids : List String
  sel : String → Option DeviceSel
  selectedDate : Option String
  selectedSlot : Option String

/-- Initial selection state of the page. -/
def initSelState : SelState :=
  { ids := [], sel := fun _ => none, selectedDate := none, selectedSlot := none }

/-- handleDeviceSelect: toggle a device; deselecting removes its entry,
selecting appends it with a blank entry; both reset the legacy fields. -/
def handleDeviceSelect (st : SelState) (deviceId : String) : SelState :=
  if deviceId ∈ st.ids then
    { st with
      ids := st.ids.filter (fun id => id != deviceId)
      sel := Function.update st.sel deviceId none
      selectedDate := none
      selectedSlot := none }
  else
    { st with
      ids := st.ids ++ [deviceId]
      sel := Function.update st.sel deviceId (some { date := none, slot := none })
      selectedDate := none
      selectedSlot := none }

/-- handleDeviceDateSelect: spread the previous entry (or a blank one),
set the date, reset the slot to null. -/
def handleDeviceDateSelect (st : SelState) (deviceId date : String) : SelState :=
  let prev := (st.sel deviceId).getD { date := none, slot := none }
  { st with
    sel := Function.update st.sel deviceId
      (some { prev with date := some date, slot := none }) }

/-- Clearing loop of handleDeviceSlotSelect: for each other selected
device whose entry matches the same date and the just-chosen slot, reset
that entry's slot to null. -/
def clearOthers (deviceId date slot : String) :
    List String → (String → Option DeviceSel) → (String → Option DeviceSel)
  | [], f => f
  | otherId :: rest, f =>
    if otherId = deviceId then clearOthers deviceId date slot rest f
    else
      match f otherId with
      | some o =>
        if o.date == some date && o.slot == some slot then
          clearOthers deviceId date slot rest
            (Function.update f otherId (some { o with slot := none }))
        else clearOthers deviceId date slot rest f
      | none => clearOthers deviceId date slot rest f

/-- handleDeviceSlotSelect: set the device's slot, then, when the device
has a truthy date, clear the same (date, slot) choice from every other
selected device. -/
def handleDeviceSlotSelect (st : SelState) (deviceId slot : String) : SelState :=
  let prev := (st.sel deviceId).getD { date := none, slot := none }
  let updated := Function.update st.sel deviceId (some { prev with slot := some slot })
  match updated deviceId with
  | some s =>
    if truthy s.date then
      { st with sel := clearOthers deviceId (s.date.getD "") slot st.ids updated }
    else { st with sel := updated }
  | none => { st with sel := updated }

/-- One user interaction with the selection state. -/
inductive SelOp where
  | select (deviceId : String)
  | dateSelect (deviceId date : String)
  | slotSelect (deviceId slot : String)

/-- Apply one selection-state operation. -/
def applySelOp (st : SelState) : SelOp → SelState
  | .select d => handleDeviceSelect st d
  | .dateSelect d dt => handleDeviceDateSelect st d dt
  | .slotSelect d sl => handleDeviceSlotSelect st d sl

/-- Run a sequence of selection-state operations. -/
def runSelOps (st : SelState) : List SelOp → SelState
  | [] => st
  | op :: rest => runSelOps (applySelOp st op) rest

/-- An operation the page can actually issue: dates offered to the user
come from the event's date chips and are non-empty strings. -/
def SelOp.valid : SelOp → Prop
  | .dateSelect _ date => date.data ≠ []
  | _ => True

/-- The complete (date, slot) pair a device's entry holds, when it holds
both. -/
def selPair (sel : String → Option DeviceSel) (d : String) :
    Option (String × String) :=
  match sel d with
  | some s =>
    match s.date, s.slot with
    | some dt, some sl => some (dt, sl)
    | _, _ => none
  | none => none

/-- No two distinct selected devices hold the same complete (date, slot)
pair. -/
def ConflictFree (st : SelState) : Prop :=
  ∀ d1 ∈ st.ids, ∀ d2 ∈ st.ids, d1 ≠ d2 →
    ∀ p : String × String, selPair st.sel d1 = some p → selPair st.sel d2 ≠ some p

/-- Auxiliary well-formedness maintained by valid operations: every stored
date is a non-empty string. -/
def SelDatesNonEmpty (st : SelState) : Prop :=
  ∀ d s, st.sel d = some s → ∀ dt, s.date = some dt → dt.data ≠ []

/-! ## Booking submission (handleBooking, src/app/book/page.tsx) -/

/-- Outcome of one handleBooking run, one constructor per early return of
the source plus success. -/
inductive BookResult where
  | incompleteSelection
  | missingContact
  | notConfirmedArrival
  | invalidEmail
  | invalidPhone
  | missingDateSlot
  | slotTaken (deviceId date slot : String)
  | duplicatePerson (existing : Booking)
  | success
deriving DecidableEq, Repr

/-- allDevicesHaveSelection: at least one device is selected and every
selected device's entry has a truthy date and slot. -/
def allDevicesHaveSelection (ids : List String) (sel : String → Option DeviceSel) :
    Bool :=
  !ids.isEmpty && ids.all (fun id =>
    match sel id with
    | some s => truthy s.date && truthy s.slot
    | none => false)

/-- First validation loop of handleBooking: per selected device, re-check
the slot against the store via getBookingBySlot. -/
def checkSlotAvailability (store : List Booking) (eventId : String)
    (sel : String → Option DeviceSel) : List String → Option BookResult
  | [] => none
  | d :: rest =>
    match sel d with
    | none => some .missingDateSlot
    | some s =>
      if truthy s.date && truthy s.slot then
        match getBookingBySlot store eventId (s.date.getD "") (s.slot.getD "")
            (some d) with
        | some _ => some (.slotTaken d (s.date.getD "") (s.slot.getD ""))
        | none => checkSlotAvailability store eventId sel rest
      else some .missingDateSlot

/-- Second validation loop of handleBooking: per selected device, check
that the submitter holds no booking at that date and slot on any
device. -/
def checkUserConflict (store : List Booking) (eventId : String)
    (sel : String → Option DeviceSel) (email phone : String) :
    List String → Option BookResult
  | [] => none
  | d :: rest =>
    let s := (sel d).getD { date := none, slot := none }
    match getBookingByUserAtSlot store eventId (s.date.getD "") (s.slot.getD "")
        (some email) (some phone) with
    | some b => some (.duplicatePerson b)
    | none => checkUserConflict store eventId sel email phone rest

/-- The booking record handleBooking writes for one device: the device's
selected date and slot, the trimmed name, the lower-cased trimmed email,
the trimmed phone, and the trimmed note when non-blank. -/
def mkBooking (eventId deviceId : String) (s : DeviceSel) (form : BookingForm) :
    Booking :=
  { eventId := eventId
    deviceId := deviceId
    slotTime := s.slot.getD ""
    date := s.date.getD ""
    name := jsTrim form.name
    email := jsTrim (jsToLower form.email)
    phone := jsTrim form.phone
    note :=
      if truthyStr form.note && !(jsTrim form.note).data.isEmpty then
        some (jsTrim form.note)
      else none }

/-- Commit loop of handleBooking: one createBooking per selected device,
sequentially. -/
def createBookings (store : List Booking) (eventId : String)
    (sel : String → Option DeviceSel) (form : BookingForm) :
    List String → List Booking
  | [] => store
  | d :: rest =>
    createBookings
      (createBooking store
        (mkBooking eventId d ((sel d).getD { date := none, slot := none }) form))
      eventId sel form rest

/-- handleBooking: the early-return form checks, then the slot-taken
re-check per device, then the same-person check per device, then the
commit loop; every failure leaves the store unchanged. -/
def handleBooking (store : List Booking) (eventId : String) (ids : List String)
    (sel : String → Option DeviceSel) (form : BookingForm) :
    BookResult × List Booking :=
  if !allDevicesHaveSelection ids sel then (.incompleteSelection, store)
  else if !truthyStr form.name || !truthyStr form.email || !truthyStr form.phone then
    (.missingContact, store)
  else if !form.confirmedArrival then (.notConfirmedArrival, store)
  else if !emailOk form.email then (.invalidEmail, store)
  else if !phoneOk form.phone then (.invalidPhone, store)
  else
    match checkSlotAvailability store eventId sel ids with
    | some r => (r, store)
    | none =>
      match checkUserConflict store eventId sel (jsTrim form.email)
          (jsTrim form.phone) ids with
      | some r => (r, store)
      | none => (.success, createBookings store eventId sel form ids)

/-- Outcome of a full page-level reservation attempt. -/
inductive PageResult where
  | eventNotFound
  | eventDisabled
  | noDevices
  | formResult (r : BookResult)
deriving DecidableEq, Repr

/-- Page-level reservation attempt (BookEventContent): load the event by
id; a missing event, a disabled event, or an event with no devices never
reaches the booking form, so handleBooking runs only past those three
guards. -/
def reservationAttempt (events : List Event) (store : List Booking)
    (eventId : String) (ids : List String) (sel : String → Option DeviceSel)
    (form : BookingForm) : PageResult × List Booking :=
  match getEventById events eventId with
  | none => (.eventNotFound, store)
  | some ev =>
    if ev.enabled = false then (.eventDisabled, store)
    else if ev.deviceIds.isEmpty then (.noDevices, store)
    else
      let r := handleBooking store eventId ids sel form
      (.formResult r.1, r.2)

/-- One booking submission: the event, the selected devices, their
per-device choices, and the contact form. -/
structure Submission where
  eventId : String
  ids : List String
  sel : String → Option DeviceSel
  form : BookingForm

/-- Run a sequence of submissions against the booking store, each through
the full handleBooking validation-then-commit path. -/
def runSubmissions (store : List Booking) : List Submission → List Booking
  | [] => store
  | sub :: rest =>
    runSubmissions (handleBooking store sub.eventId sub.ids sub.sel sub.form).2 rest

/-! ## Admin event deletion (handleDeleteEvent, admin dashboard) -/

/-- The two stores the admin delete flow can touch. -/
structure AdminStores where
  events : List Event
  bookings : List Booking
deriving DecidableEq, Repr

/-- handleDeleteEvent: after the window.confirm gate and the typed DELETE
prompt gate, call deleteEvent on the events collection; the bookings
collection is not touched. -/
def handleDeleteEvent (st : AdminStores) (eventId : String) (confirmed : Bool)
    (promptInput : Option String) : AdminStores :=
  if !confirmed then st
  else if promptInput != some "DELETE" then st
  else { st with events := deleteEvent st.events eventId }

/-! ## Store invariants -/

/-- The slot key of a booking. -/
def slotKey (b : Booking) : String × String × String × String :=
  (b.eventId, b.deviceId, b.date, b.slotTime)

/-- Slot-uniqueness invariant: no two bookings in the store share
(eventId, deviceId, date, slotTime). -/
def SlotUnique (store : List Booking) : Prop :=
  store.Pairwise (fun a b => slotKey a ≠ slotKey b)

/-- Same-person-same-moment invariant: two bookings of one event at the
same date and slot agree on neither email nor phone. -/
def PersonUnique (store : List Booking) : Prop :=
  store.Pairwise (fun a b =>
    a.eventId = b.eventId → a.date = b.date → a.slotTime = b.slotTime →
      a.email ≠ b.email ∧ a.phone ≠ b.phone)

/-- The per-device complete (date, slot) pairs of a submission are
pairwise distinct along the selected-device list (the selection handlers
maintain exactly this; see the selection-state invariant). -/
def DistinctSelPairs (ids : List String) (sel : String → Option DeviceSel) : Prop :=
  ids.Pairwise (fun d1 d2 =>
    ∀ p : String × String, selPair sel d1 = some p → selPair sel d2 ≠ some p)

/-! ## Lemmas: dropWhile and the JS string primitives -/

theorem head?_dropWhile_eq_false {α : Type} {p : α → Bool} {l : List α} {c : α}
    (h : (List.dropWhile p l).head? = some c) : p c = false := by
  induction l with
  | nil => simp at h
  | cons a t ih =>
    rw [List.dropWhile_cons] at h
    split at h
    · exact ih h
    · next hp =>
      simp only [List.head?_cons, Option.some.injEq] at h
      subst h
      simpa using hp

theorem dropWhile_eq_self_of_head? {α : Type} {p : α → Bool} {l : List α}
    (h : ∀ c, l.head? = some c → p c = false) : List.dropWhile p l = l := by
  cases l with
  | nil => rfl
  | cons a t =>
    rw [List.dropWhile_cons, if_neg]
    simp [h a rfl]

theorem dropWhile_idem {α : Type} (p : α → Bool) (l : List α) :
    List.dropWhile p (List.dropWhile p l) = List.dropWhile p l := by
  apply dropWhile_eq_self_of_head?
  intro c hc
  exact head?_dropWhile_eq_false hc

theorem getLast?_dropWhile {α : Type} {p : α → Bool} {l : List α}
    (h : List.dropWhile p l ≠ []) :
    (List.dropWhile p l).getLast? = l.getLast? := by
  induction l with
  | nil => simp at h
  | cons a t ih =>
    rw [List.dropWhile_cons]
    rw [List.dropWhile_cons] at h
    split
    · next hp =>
      rw [if_pos hp] at h
      have ht : t ≠ [] := by
        intro he
        exact h (by simp [he])
      cases t with
      | nil => exact absurd rfl ht
      | cons b t2 => rw [List.getLast?_cons_cons]; exact ih h
    · rfl

theorem forall_dropWhile_iff {α : Type} (p : α → Bool) (l : List α) :
    (∀ x ∈ List.dropWhile p l, p x = true) ↔ ∀ x ∈ l, p x = true := by
  induction l with
  | nil => simp
  | cons a t ih =>
    rw [List.dropWhile_cons]
    split
    · next hp => simp [hp, ih]
    · next hp => simp

theorem trimList_idem (l : List Char) : trimList (trimList l) = trimList l := by
  set T := trimList l with hT
  have hself : List.dropWhile jsWs T.reverse = T.reverse := by
    apply dropWhile_eq_self_of_head?
    intro c hc
    rw [List.head?_reverse] at hc
    by_cases hTe : T = []
    · simp [hTe] at hc
    · have h1 : T.getLast? = ((List.dropWhile jsWs l.reverse).reverse).getLast? := by
        rw [hT]; unfold trimList
        exact getLast?_dropWhile (by rw [hT] at hTe; exact hTe)
      rw [h1, List.getLast?_reverse] at hc
      exact head?_dropWhile_eq_false hc
  unfold trimList
  rw [hself, List.reverse_reverse, hT]
  unfold trimList
  exact dropWhile_idem _ _

theorem trimList_map (f : Char → Char) (hf : ∀ c, jsWs (f c) = jsWs c)
    (l : List Char) : trimList (l.map f) = (trimList l).map f := by
  have hcomp : (jsWs ∘ f) = jsWs := funext hf
  unfold trimList
  rw [← List.map_reverse, List.dropWhile_map, hcomp, ← List.map_reverse,
    List.dropWhile_map, hcomp]

theorem jsWs_toLower (c : Char) : jsWs (Char.toLower c) = jsWs c := by
  have hdef : Char.toLower c =
      if c.toNat ≥ 65 ∧ c.toNat ≤ 90 then Char.ofNat (c.toNat + 32) else c := rfl
  rw [hdef]
  by_cases h : c.toNat ≥ 65 ∧ c.toNat ≤ 90
  · rw [if_pos h]
    have h1 : jsWs c = false := by
      simp only [jsWs, Bool.or_eq_false_iff, beq_eq_false_iff_ne]
      omega
    have h2 : ∀ n, n < 91 → 65 ≤ n → jsWs (Char.ofNat (n + 32)) = false := by decide
    rw [h1, h2 c.toNat (by omega) h.1]
  · rw [if_neg h]

theorem jsTrim_jsTrim (s : String) : jsTrim (jsTrim s) = jsTrim s := by
  unfold jsTrim
  exact congrArg String.mk (trimList_idem s.data)

theorem jsToLower_jsTrim (s : String) : jsToLower (jsTrim s) = jsTrim (jsToLower s) := by
  unfold jsToLower jsTrim
  exact congrArg String.mk (trimList_map Char.toLower jsWs_toLower s.data).symm

theorem jsTrim_jsToLower_jsTrim (s : String) :
    jsTrim (jsToLower (jsTrim s)) = jsTrim (jsToLower s) := by
  rw [jsToLower_jsTrim, jsTrim_jsTrim]

theorem trimList_eq_nil_iff (l : List Char) :
    trimList l = [] ↔ ∀ c ∈ l, jsWs c = true := by
  unfold trimList
  rw [List.dropWhile_eq_nil_iff]
  constructor
  · intro h c hc
    have := (forall_dropWhile_iff jsWs l.reverse).mp
      (fun x hx => h x (by simpa using hx))
    exact this c (by simpa using hc)
  · intro h c hc
    simp only [List.mem_reverse] at hc
    have hc2 : c ∈ l.reverse := (List.dropWhile_sublist jsWs).subset hc
    exact h c (by simpa using hc2)

/-! ## Lemmas: validated emails and phones trim to non-empty strings -/

theorem splitOnCharList_ne_nil (sep : Char) (l : List Char) :
    splitOnCharList sep l ≠ [] := by
  induction l with
  | nil => simp [splitOnCharList]
  | cons c rest ih =>
    unfold splitOnCharList
    by_cases hc : c = sep
    · simp [hc]
    · simp only [if_neg hc]
      cases hr : splitOnCharList sep rest with
      | nil => exact absurd hr ih
      | cons h t => simp

theorem mem_of_splitOnCharList_two (sep : Char) (l : List Char)
    (h : 2 ≤ (splitOnCharList sep l).length) : sep ∈ l := by
  induction l with
  | nil => simp [splitOnCharList] at h
  | cons c rest ih =>
    by_cases hc : c = sep
    · simp [hc]
    · unfold splitOnCharList at h
      simp only [if_neg hc] at h
      cases hr : splitOnCharList sep rest with
      | nil => exact absurd hr (splitOnCharList_ne_nil sep rest)
      | cons hd tl =>
        rw [hr] at h
        simp only [List.length_cons] at h
        have : sep ∈ rest := by
          apply ih
          rw [hr]
          simpa using h
        exact List.mem_cons_of_mem _ this

theorem emailOk_at_mem (s : String) (h : emailOk s = true) : '@' ∈ s.data := by
  unfold emailOk at h
  split at h
  · next lp dp heq =>
    apply mem_of_splitOnCharList_two '@' s.data
    rw [heq]
    simp
  · exact absurd h (by simp)

theorem trimList_ne_nil_of_mem {l : List Char} {c : Char} (hc : c ∈ l)
    (hw : jsWs c = false) : trimList l ≠ [] := by
  intro he
  have := (trimList_eq_nil_iff l).mp he c hc
  rw [hw] at this
  exact absurd this (by simp)

theorem emailOk_trim_truthy (s : String) (h : emailOk s = true) :
    truthyStr (jsTrim s) = true := by
  have hne : trimList s.data ≠ [] :=
    trimList_ne_nil_of_mem (emailOk_at_mem s h) (by decide)
  simp only [truthyStr, jsTrim, Bool.not_eq_true']
  simpa [List.isEmpty_iff] using hne

theorem isDigit_not_jsWs (c : Char) (h : c.isDigit = true) : jsWs c = false := by
  simp only [Char.isDigit, Bool.and_eq_true, decide_eq_true_eq] at h
  obtain ⟨h1, h2⟩ := h
  have h1b : (48 : UInt32) ≤ c.val := h1
  rw [UInt32.le_def, BitVec.le_def] at h1b h2
  simp only [jsWs, Bool.or_eq_false_iff, beq_eq_false_iff_ne]
  have hv : c.toNat = c.val.toBitVec.toNat := rfl
  have h48 : (48 : UInt32).toBitVec.toNat = 48 := rfl
  have h57 : (57 : UInt32).toBitVec.toNat = 57 := rfl
  omega

theorem phoneOk_trim_truthy (s : String) (h : phoneOk s = true) :
    truthyStr (jsTrim s) = true := by
  simp only [phoneOk, Bool.and_eq_true, decide_eq_true_eq] at h
  obtain ⟨-, hlen⟩ := h
  have hne : s.data.filter Char.isDigit ≠ [] := by
    intro he
    rw [he] at hlen
    simp at hlen
  obtain ⟨c, hc⟩ := List.exists_mem_of_ne_nil _ hne
  rw [List.mem_filter] at hc
  have hne2 : trimList s.data ≠ [] :=
    trimList_ne_nil_of_mem hc.1 (isDigit_not_jsWs c hc.2)
  simp only [truthyStr, jsTrim, Bool.not_eq_true']
  simpa [List.isEmpty_iff] using hne2

/-! ## Lemmas: what a passed validation query guarantees -/

theorem getBookingBySlot_none {store : List Booking} {eventId date slotTime d : String}
    (h : getBookingBySlot store eventId date slotTime (some d) = none) :
    ∀ b ∈ store, ¬(b.eventId = eventId ∧ b.date = date ∧ b.slotTime = slotTime ∧
      b.deviceId = d) := by
  intro b hb hcontra
  obtain ⟨h1, h2, h3, h4⟩ := hcontra
  have hpred := List.find?_eq_none.mp h b hb
  apply hpred
  subst h1 h2 h3 h4
  by_cases ht : truthyStr b.deviceId
  · simp [ht]
  · simp [Bool.eq_false_iff.mpr ht]

theorem getBookingByUserAtSlot_none {store : List Booking}
    {eventId date slotTime email phone : String}
    (he : truthyStr email = true) (hp : truthyStr phone = true)
    (h : getBookingByUserAtSlot store eventId date slotTime (some email)
      (some phone) = none) :
    ∀ b ∈ store, b.eventId = eventId → b.date = date → b.slotTime = slotTime →
      b.email ≠ jsTrim (jsToLower email) ∧ b.phone ≠ jsTrim phone := by
  unfold getBookingByUserAtSlot at h
  simp only [he, if_true] at h
  cases hfind : store.find? (fun b =>
      b.eventId == eventId && b.date == date && b.slotTime == slotTime &&
        b.email == jsTrim (jsToLower email)) with
  | some b0 => rw [hfind] at h; simp at h
  | none =>
    rw [hfind] at h
    simp only [hp, if_true] at h
    intro b hb h1 h2 h3
    constructor
    · intro hmail
      have := List.find?_eq_none.mp hfind b hb
      apply this
      simp [h1, h2, h3, hmail]
    · intro hphone
      have := List.find?_eq_none.mp h b hb
      apply this
      simp [h1, h2, h3, hphone]

theorem checkSlotAvailability_none {store : List Booking} {eventId : String}
    {sel : String → Option DeviceSel} {ids : List String}
    (h : checkSlotAvailability store eventId sel ids = none) :
    ∀ d ∈ ids, ∃ s, sel d = some s ∧ (truthy s.date && truthy s.slot) = true ∧
      getBookingBySlot store eventId (s.date.getD "") (s.slot.getD "")
        (some d) = none := by
  induction ids with
  | nil => simp
  | cons d0 rest ih =>
    unfold checkSlotAvailability at h
    intro d hd
    cases hsel : sel d0 with
    | none => rw [hsel] at h; simp at h
    | some s0 =>
      rw [hsel] at h
      dsimp only at h
      by_cases hts : (truthy s0.date && truthy s0.slot) = true
      · rw [if_pos hts] at h
        cases hq : getBookingBySlot store eventId (s0.date.getD "")
            (s0.slot.getD "") (some d0) with
        | some b0 => rw [hq] at h; simp at h
        | none =>
          rw [hq] at h
          rcases List.mem_cons.mp hd with rfl | hd2
          · exact ⟨s0, hsel, hts, hq⟩
          · exact ih h d hd2
      · rw [if_neg hts] at h; simp at h

theorem checkUserConflict_none {store : List Booking} {eventId : String}
    {sel : String → Option DeviceSel} {email phone : String} {ids : List String}
    (h : checkUserConflict store eventId sel email phone ids = none) :
    ∀ d ∈ ids,
      getBookingByUserAtSlot store eventId
        (((sel d).getD { date := none, slot := none }).date.getD "")
        (((sel d).getD { date := none, slot := none }).slot.getD "")
        (some email) (some phone) = none := by
  induction ids with
  | nil => simp
  | cons d0 rest ih =>
    unfold checkUserConflict at h
    dsimp only at h
    intro d hd
    cases hq : getBookingByUserAtSlot store eventId
        (((sel d0).getD { date := none, slot := none }).date.getD "")
        (((sel d0).getD { date := none, slot := none }).slot.getD "")
        (some email) (some phone) with
    | some b0 => rw [hq] at h; simp at h
    | none =>
      rw [hq] at h
      rcases List.mem_cons.mp hd with rfl | hd2
      · exact hq
      · exact ih h d hd2

theorem createBookings_eq (store : List Booking) (eventId : String)
    (sel : String → Option DeviceSel) (form : BookingForm) (ids : List String) :
    createBookings store eventId sel form ids =
      store ++ ids.map (fun d =>
        mkBooking eventId d ((sel d).getD { date := none, slot := none }) form) := by
  induction ids generalizing store with
  | nil => simp [createBookings]
  | cons d rest ih =>
    unfold createBookings createBooking
    rw [ih]
    simp

theorem allDevicesHaveSelection_spec {ids : List String}
    {sel : String → Option DeviceSel} (h : allDevicesHaveSelection ids sel = true) :
    ∀ d ∈ ids, ∃ s, sel d = some s ∧ truthy s.date = true ∧ truthy s.slot = true := by
  unfold allDevicesHaveSelection at h
  simp only [Bool.and_eq_true, List.all_eq_true] at h
  intro d hd
  have := h.2 d hd
  cases hsel : sel d with
  | none => rw [hsel] at this; simp at this
  | some s =>
    rw [hsel] at this
    simp only [Bool.and_eq_true] at this
    exact ⟨s, rfl, this.1, this.2⟩

theorem checkSlotAvailability_ne_success {store : List Booking} {eventId : String}
    {sel : String → Option DeviceSel} {ids : List String} :
    checkSlotAvailability store eventId sel ids ≠ some BookResult.success := by
  induction ids with
  | nil => simp [checkSlotAvailability]
  | cons d rest ih =>
    unfold checkSlotAvailability
    cases hsel : sel d with
    | none => simp
    | some s =>
      dsimp only
      split
      · cases hq : getBookingBySlot store eventId (s.date.getD "") (s.slot.getD "")
            (some d) with
        | some b => simp
        | none => simpa using ih
      · simp

theorem checkUserConflict_ne_success {store : List Booking} {eventId : String}
    {sel : String → Option DeviceSel} {email phone : String} {ids : List String} :
    checkUserConflict store eventId sel email phone ids ≠ some BookResult.success := by
  induction ids with
  | nil => simp [checkUserConflict]
  | cons d rest ih =>
    unfold checkUserConflict
    dsimp only
    split
    · simp
    · simpa using ih

theorem handleBooking_cases (store : List Booking) (eventId : String)
    (ids : List String) (sel : String → Option DeviceSel) (form : BookingForm) :
    (∃ r, r ≠ BookResult.success ∧
      handleBooking store eventId ids sel form = (r, store)) ∨
    (allDevicesHaveSelection ids sel = true ∧ emailOk form.email = true ∧
      phoneOk form.phone = true ∧
      checkSlotAvailability store eventId sel ids = none ∧
      checkUserConflict store eventId sel (jsTrim form.email)
        (jsTrim form.phone) ids = none ∧
      handleBooking store eventId ids sel form =
        (BookResult.success, store ++ ids.map (fun d =>
          mkBooking eventId d ((sel d).getD { date := none, slot := none }) form))) := by
  unfold handleBooking
  split
  · exact Or.inl ⟨_, by simp, rfl⟩
  split
  · exact Or.inl ⟨_, by simp, rfl⟩
  split
  · exact Or.inl ⟨_, by simp, rfl⟩
  split
  · exact Or.inl ⟨_, by simp, rfl⟩
  split
  · exact Or.inl ⟨_, by simp, rfl⟩
  next h1 h2 h3 h4 h5 =>
  split
  · next r hslot =>
    refine Or.inl ⟨r, ?_, rfl⟩
    intro hr
    subst hr
    exact checkSlotAvailability_ne_success hslot
  next hslot =>
  split
  · next r huser =>
    refine Or.inl ⟨r, ?_, rfl⟩
    intro hr
    subst hr
    exact checkUserConflict_ne_success huser
  next huser =>
  refine Or.inr ⟨?_, ?_, ?_, hslot, huser, ?_⟩
  · simpa using h1
  · simpa using h4
  · simpa using h5
  · rw [createBookings_eq]

theorem truthy_eq_some {o : Option String} (h : truthy o = true) :
    ∃ s, o = some s ∧ s.data ≠ [] := by
  cases o with
  | none => simp [truthy] at h
  | some s =>
    refine ⟨s, rfl, ?_⟩
    simp only [truthy, truthyStr, Bool.not_eq_true'] at h
    simpa [List.isEmpty_iff] using h

theorem slotUnique_handleBooking {store : List Booking} {eventId : String}
    {ids : List String} {sel : String → Option DeviceSel} {form : BookingForm}
    (hN : ids.Nodup) (hInv : SlotUnique store) :
    SlotUnique (handleBooking store eventId ids sel form).2 := by
  rcases handleBooking_cases store eventId ids sel form with
    ⟨r, -, heq⟩ | ⟨hall, hem, hph, hslot, huser, heq⟩
  · rw [heq]; exact hInv
  · rw [heq]
    unfold SlotUnique
    rw [List.pairwise_append]
    refine ⟨hInv, ?_, ?_⟩
    · rw [List.pairwise_map]
      refine hN.imp ?_
      intro d1 d2 hne hk
      exact hne (congrArg (fun t => t.2.1) hk)
    · intro a ha b hb
      obtain ⟨d, hd, rfl⟩ := List.mem_map.mp hb
      obtain ⟨s, hsel, hts, hq⟩ := checkSlotAvailability_none hslot d hd
      intro hk
      apply getBookingBySlot_none hq a ha
      rw [hsel] at hk
      simp only [slotKey, mkBooking, Option.getD_some, Prod.mk.injEq] at hk
      exact ⟨hk.1, hk.2.2.1, hk.2.2.2, hk.2.1⟩

/-- C1: starting from a store with no duplicated (eventId, deviceId, date,
slotTime), any sequence of handleBooking submissions (each a set of
selected devices, so with no repeated device id) leaves the store with at
most one booking per slot key: every commit happens only after the
slot-taken re-check via getBookingBySlot passed, against the same store the
writes extend. -/
theorem slot_uniqueness_invariant (store0 : List Booking) (subs : List Submission)
    (hN : ∀ sub ∈ subs, sub.ids.Nodup) (hInv : SlotUnique store0) :
    SlotUnique (runSubmissions store0 subs) := by
  induction subs generalizing store0 with
  | nil => exact hInv
  | cons sub rest ih =>
    unfold runSubmissions
    exact ih _ (fun s hs => hN s (List.mem_cons_of_mem _ hs))
      (slotUnique_handleBooking (hN sub (List.mem_cons_self _ _)) hInv)

/-- Witness for C1: a concrete two-device submission against the empty
store keeps the invariant. -/
theorem slot_uniqueness_invariant_witness :
    SlotUnique (runSubmissions []
      [{ eventId := "EV1", ids := ["D1", "D2"],
         sel := fun d =>
           if d = "D1" then some { date := some "2026-02-03", slot := some "09:00" }
           else if d = "D2" then some { date := some "2026-02-03", slot := some "09:30" }
           else none,
         form := { name := "Alice", email := "alice@x.com", phone := "0123456789",
                   note := "", confirmedArrival := true } }]) :=
  slot_uniqueness_invariant [] _ (by simp [List.Nodup]) (by simp [SlotUnique])

/-- C2 (amended): one handleBooking submission whose per-device (date,
slot) pairs are pairwise distinct (which is what the selection handlers
guarantee, see the selection-state invariant) preserves the
same-person-same-moment invariant: the duplicate-person check ran against
the same store the writes extend, and the normalization applied to the
query value (trim, then lowercase-and-trim) agrees with the normalization
stored on the written records (lowercase, then trim). -/
theorem person_uniqueness_amended {store : List Booking} {eventId : String}
    {ids : List String} {sel : String → Option DeviceSel} {form : BookingForm}
    (hD : DistinctSelPairs ids sel) (hInv : PersonUnique store) :
    PersonUnique (handleBooking store eventId ids sel form).2 := by
  rcases handleBooking_cases store eventId ids sel form with
    ⟨r, -, heq⟩ | ⟨hall, hem, hph, hslot, huser, heq⟩
  · rw [heq]; exact hInv
  · rw [heq]
    unfold PersonUnique
    rw [List.pairwise_append]
    refine ⟨hInv, ?_, ?_⟩
    · rw [List.pairwise_map]
      refine List.Pairwise.imp_of_mem ?_ hD
      intro d1 d2 h1mem h2mem hR
      intro hev hdate hslott
      exfalso
      obtain ⟨s1, hs1, ht1d, ht1s⟩ := allDevicesHaveSelection_spec hall d1 h1mem
      obtain ⟨s2, hs2, ht2d, ht2s⟩ := allDevicesHaveSelection_spec hall d2 h2mem
      obtain ⟨dt1, hdt1, -⟩ := truthy_eq_some ht1d
      obtain ⟨sl1, hsl1, -⟩ := truthy_eq_some ht1s
      obtain ⟨dt2, hdt2, -⟩ := truthy_eq_some ht2d
      obtain ⟨sl2, hsl2, -⟩ := truthy_eq_some ht2s
      simp only [mkBooking, hs1, hs2, Option.getD_some, hdt1, hdt2, hsl1, hsl2]
        at hdate hslott
      apply hR (dt1, sl1)
      · simp [selPair, hs1, hdt1, hsl1]
      · subst hdate hslott
        simp [selPair, hs2, hdt2, hsl2]
    · intro a ha b hb
      obtain ⟨d, hd, rfl⟩ := List.mem_map.mp hb
      intro hev hdate hslott
      have hqa := checkUserConflict_none huser d hd
      obtain ⟨s, hs, htd, hts⟩ := allDevicesHaveSelection_spec hall d hd
      rw [hs] at hqa
      simp only [Option.getD_some] at hqa
      have he := emailOk_trim_truthy form.email hem
      have hp := phoneOk_trim_truthy form.phone hph
      have hmain := getBookingByUserAtSlot_none he hp hqa a ha hev
        (by simpa [mkBooking, hs] using hdate)
        (by simpa [mkBooking, hs] using hslott)
      rw [jsTrim_jsToLower_jsTrim, jsTrim_jsTrim] at hmain
      simpa [mkBooking] using hmain

/-- Counterexample for C2: a single multi-device submission that puts two
devices on the same (date, slot) passes both store checks (the store is
empty) and commits two bookings carrying the same person at the same date
and slot, so the invariant does not survive this successful commit. -/
theorem person_uniqueness_counterexample :
    handleBooking [] "EV2" ["M1", "M2"]
        (fun d =>
          if d = "M1" then some { date := some "2026-02-04", slot := some "10:00" }
          else if d = "M2" then some { date := some "2026-02-04", slot := some "10:00" }
          else none)
        { name := "Bob", email := "bob@y.com", phone := "9876543210",
          note := "", confirmedArrival := true } =
      (BookResult.success,
        [{ eventId := "EV2", deviceId := "M1", slotTime := "10:00",
           date := "2026-02-04", name := "Bob", email := "bob@y.com",
           phone := "9876543210", note := none },
         { eventId := "EV2", deviceId := "M2", slotTime := "10:00",
           date := "2026-02-04", name := "Bob", email := "bob@y.com",
           phone := "9876543210", note := none }]) ∧
    ¬ PersonUnique
        [{ eventId := "EV2", deviceId := "M1", slotTime := "10:00",
           date := "2026-02-04", name := "Bob", email := "bob@y.com",
           phone := "9876543210", note := none },
         { eventId := "EV2", deviceId := "M2", slotTime := "10:00",
           date := "2026-02-04", name := "Bob", email := "bob@y.com",
           phone := "9876543210", note := none }] := by
  constructor
  · decide
  · intro h
    have h2 := (List.pairwise_cons.mp h).1 _ (List.mem_singleton.mpr rfl)
    exact (h2 rfl rfl rfl).1 rfl

/-- Witness for the amended C2: a concrete single-device submission
against the empty store keeps the invariant. -/
theorem person_uniqueness_amended_witness :
    PersonUnique (handleBooking [] "EV2w" ["K1"]
      (fun d =>
        if d = "K1" then some { date := some "2026-02-05", slot := some "11:00" }
        else none)
      { name := "Carol", email := "carol@z.org", phone := "5551234567",
        note := "", confirmedArrival := true }).2 :=
  person_uniqueness_amended (by simp [DistinctSelPairs]) (by simp [PersonUnique])

/-- C7: one handleBooking run either fails some check and returns the
store unchanged, or succeeds, in which case the slot-taken query and the
duplicate-person query had both returned none for every selected device's
triple against the pre-submission store, and the new store is exactly the
old store plus one booking per selected device. -/
theorem validation_before_write (store : List Booking) (eventId : String)
    (ids : List String) (sel : String → Option DeviceSel) (form : BookingForm)
    (r : BookResult) (store2 : List Booking)
    (h : handleBooking store eventId ids sel form = (r, store2)) :
    (r ≠ BookResult.success → store2 = store) ∧
    (r = BookResult.success →
      (∀ d ∈ ids, ∃ s, sel d = some s ∧
        getBookingBySlot store eventId (s.date.getD "") (s.slot.getD "")
          (some d) = none ∧
        getBookingByUserAtSlot store eventId (s.date.getD "") (s.slot.getD "")
          (some (jsTrim form.email)) (some (jsTrim form.phone)) = none) ∧
      store2 = store ++ ids.map (fun d =>
        mkBooking eventId d ((sel d).getD { date := none, slot := none }) form)) := by
  rcases handleBooking_cases store eventId ids sel form with
    ⟨r0, hr0, heq⟩ | ⟨hall, hem, hph, hslot, huser, heq⟩
  · have hcomb := h.symm.trans heq
    rw [Prod.mk.injEq] at hcomb
    obtain ⟨rfl, rfl⟩ := hcomb
    exact ⟨fun _ => rfl, fun hsucc => absurd hsucc hr0⟩
  · have hcomb := h.symm.trans heq
    rw [Prod.mk.injEq] at hcomb
    obtain ⟨h1, h2⟩ := hcomb
    refine ⟨fun hne => absurd h1 hne, fun _ => ⟨?_, h2⟩⟩
    intro d hd
    obtain ⟨s, hsel, hts, hq⟩ := checkSlotAvailability_none hslot d hd
    have hu := checkUserConflict_none huser d hd
    rw [hsel] at hu
    simp only [Option.getD_some] at hu
    exact ⟨s, hsel, hq, hu⟩

/-- Witness for C7: a submission whose slot-taken re-check fails (the
store already holds the exact triple) leaves the store unchanged. -/
theorem validation_before_write_witness :
    (handleBooking
      [{ eventId := "EVW", deviceId := "W1", slotTime := "09:00",
         date := "2026-02-03", name := "Dan", email := "dan@x.com",
         phone := "1112223334", note := none }]
      "EVW" ["W1"]
      (fun d =>
        if d = "W1" then some { date := some "2026-02-03", slot := some "09:00" }
        else none)
      { name := "Eve", email := "eve@x.com", phone := "2223334445",
        note := "", confirmedArrival := true }).2 =
    [{ eventId := "EVW", deviceId := "W1", slotTime := "09:00",
       date := "2026-02-03", name := "Dan", email := "dan@x.com",
       phone := "1112223334", note := none }] :=
  (validation_before_write
    [{ eventId := "EVW", deviceId := "W1", slotTime := "09:00",
       date := "2026-02-03", name := "Dan", email := "dan@x.com",
       phone := "1112223334", note := none }]
    "EVW" ["W1"]
    (fun d =>
      if d = "W1" then some { date := some "2026-02-03", slot := some "09:00" }
      else none)
    { name := "Eve", email := "eve@x.com", phone := "2223334445",
      note := "", confirmedArrival := true }
    (BookResult.slotTaken "W1" "2026-02-03" "09:00")
    [{ eventId := "EVW", deviceId := "W1", slotTime := "09:00",
       date := "2026-02-03", name := "Dan", email := "dan@x.com",
       phone := "1112223334", note := none }]
    (by decide)).1 (by decide)

/-- C8 (Scenario B): against an enabled event with two devices and slot
09:00 free on both, one submission reserving D1 at 09:00 and D2 at 09:00
on the same date passes the gate and every validation check (the
slot-taken check carries the device id, and the duplicate-person check
only queries the store, which holds neither booking yet), and both
bookings are committed. -/
theorem same_slot_two_devices_one_submission :
    reservationAttempt
      [{ id := "EV8", title := "Demo", eventDates := ["2026-02-03"],
         slotDuration := 30, availableSlots := ["09:00", "09:30"],
         deviceIds := ["D1", "D2"], enabled := true }]
      [] "EV8" ["D1", "D2"]
      (fun d =>
        if d = "D1" then some { date := some "2026-02-03", slot := some "09:00" }
        else if d = "D2" then some { date := some "2026-02-03", slot := some "09:00" }
        else none)
      { name := "Alice", email := "alice@x.com", phone := "0123456789",
        note := "", confirmedArrival := true } =
    (PageResult.formResult BookResult.success,
      [{ eventId := "EV8", deviceId := "D1", slotTime := "09:00",
         date := "2026-02-03", name := "Alice", email := "alice@x.com",
         phone := "0123456789", note := none },
       { eventId := "EV8", deviceId := "D2", slotTime := "09:00",
         date := "2026-02-03", name := "Alice", email := "alice@x.com",
         phone := "0123456789", note := none }]) := by
  decide

/-- C3: a reservation attempt against a loaded event whose enabled flag is
false is answered EventDisabled with the booking store untouched, for
every booking store alike — the gate precedes the booking form, so no
slot-taken or duplicate-person check and no write can run. -/
theorem event_gate_disabled (events : List Event) (store : List Booking)
    (eventId : String) (ids : List String) (sel : String → Option DeviceSel)
    (form : BookingForm) (ev : Event)
    (hev : getEventById events eventId = some ev) (hdis : ev.enabled = false) :
    reservationAttempt events store eventId ids sel form =
      (PageResult.eventDisabled, store) := by
  unfold reservationAttempt
  rw [hev]
  simp [hdis]

/-- Witness for C3: a concrete disabled event rejects a concrete attempt
with EventDisabled and an unchanged store. -/
theorem event_gate_disabled_witness :
    reservationAttempt
      [{ id := "EVD", title := "Off", eventDates := ["2026-02-03"],
         slotDuration := 30, availableSlots := ["09:00"],
         deviceIds := ["D1"], enabled := false }]
      [] "EVD" ["D1"]
      (fun _ => none)
      { name := "", email := "", phone := "", note := "",
        confirmedArrival := false } =
    (PageResult.eventDisabled, []) :=
  event_gate_disabled _ _ _ _ _ _
    { id := "EVD", title := "Off", eventDates := ["2026-02-03"],
      slotDuration := 30, availableSlots := ["09:00"],
      deviceIds := ["D1"], enabled := false }
    (by decide) rfl

/-- C9: evaluating the admin delete flow at a concrete store shows that
handleDeleteEvent (confirm accepted, DELETE typed) removes only the event
document: the booking referencing the deleted event survives in the
bookings collection, although the flow's own confirmation dialog promises
that all associated bookings are permanently deleted. -/
theorem delete_event_leaves_bookings :
    handleDeleteEvent
      { events := [{ id := "E9", title := "Gone", eventDates := ["2026-02-03"],
                     slotDuration := 30, availableSlots := ["09:00"],
                     deviceIds := ["D1"], enabled := true }],
        bookings := [{ eventId := "E9", deviceId := "D1", slotTime := "09:00",
                       date := "2026-02-03", name := "Alice",
                       email := "alice@x.com", phone := "0123456789",
                       note := none }] }
      "E9" true (some "DELETE") =
    { events := [],
      bookings := [{ eventId := "E9", deviceId := "D1", slotTime := "09:00",
                     date := "2026-02-03", name := "Alice",
                     email := "alice@x.com", phone := "0123456789",
                     note := none }] } := by
  decide

/-! ## Availability partition (C6) -/

theorem bookedSetFor_eq_takenSlots (ev : Event) (bookings : List Booking)
    (date deviceId : String) (hdate : date ∈ ev.eventDates)
    (hdev : deviceId ∈ ev.deviceIds) (hne : deviceId.data ≠ []) :
    bookedSetFor ev bookings date deviceId =
      takenSlots bookings date deviceId := by
  have htruthy : truthyStr deviceId = true := by
    simp only [truthyStr, Bool.not_eq_true']
    simpa [List.isEmpty_iff] using hne
  unfold bookedSetFor takenSlots
  rw [if_pos (List.elem_iff.mpr hdate), if_pos (List.elem_iff.mpr hdev)]
  congr 1
  apply List.filter_congr
  intro b hb
  by_cases hdev2 : (b.deviceId == deviceId) = true
  · have hbd : b.deviceId = deviceId := beq_iff_eq.mp hdev2
    have ht : truthyStr b.deviceId = true := by rw [hbd]; exact htruthy
    rw [hdev2, ht]
    simp
  · have h2 : (b.deviceId == deviceId) = false := Bool.eq_false_iff.mpr hdev2
    rw [h2]
    simp

/-- C6: for a booking set whose records all lie inside the event's dates,
devices, and slots, and any event date and (non-empty) event device, the
free-slot list of getAvailableSlotsForDate and the taken set drawn from
the bookings partition the event's availableSlots: their union is the full
slot list, they are disjoint, and with no booking at that date and device
the full availableSlots list is returned unchanged. -/
theorem availability_partition (ev : Event) (bookings : List Booking)
    (date deviceId : String)
    (hb : ∀ b ∈ bookings, b.date ∈ ev.eventDates ∧ b.deviceId ∈ ev.deviceIds ∧
      b.slotTime ∈ ev.availableSlots)
    (hdate : date ∈ ev.eventDates) (hdev : deviceId ∈ ev.deviceIds)
    (hne : deviceId.data ≠ []) :
    (∀ s, s ∈ ev.availableSlots ↔
      s ∈ getAvailableSlotsForDate ev bookings date deviceId ∨
        s ∈ takenSlots bookings date deviceId) ∧
    (∀ s, s ∈ getAvailableSlotsForDate ev bookings date deviceId →
      s ∉ takenSlots bookings date deviceId) ∧
    ((∀ b ∈ bookings, ¬(b.date = date ∧ b.deviceId = deviceId)) →
      getAvailableSlotsForDate ev bookings date deviceId = ev.availableSlots) := by
  have htruthy : truthyStr deviceId = true := by
    simp only [truthyStr, Bool.not_eq_true']
    simpa [List.isEmpty_iff] using hne
  have hset := bookedSetFor_eq_takenSlots ev bookings date deviceId hdate hdev hne
  have hfree : getAvailableSlotsForDate ev bookings date deviceId =
      ev.availableSlots.filter
        (fun slot => !(takenSlots bookings date deviceId).contains slot) := by
    unfold getAvailableSlotsForDate
    rw [if_neg, hset]
    simp [htruthy]
  refine ⟨?_, ?_, ?_⟩
  · intro s
    rw [hfree]
    constructor
    · intro hs
      by_cases ht : s ∈ takenSlots bookings date deviceId
      · exact Or.inr ht
      · refine Or.inl ?_
        rw [List.mem_filter]
        refine ⟨hs, ?_⟩
        simp only [Bool.not_eq_true']
        rw [Bool.eq_false_iff]
        intro hcon
        exact ht (List.elem_iff.mp hcon)
    · rintro (hs | hs)
      · exact (List.mem_filter.mp hs).1
      · simp only [takenSlots, List.mem_map, List.mem_filter] at hs
        obtain ⟨b, ⟨hbmem, -⟩, rfl⟩ := hs
        exact (hb b hbmem).2.2
  · intro s hs ht
    rw [hfree, List.mem_filter] at hs
    have h2 := hs.2
    simp only [Bool.not_eq_true'] at h2
    rw [Bool.eq_false_iff] at h2
    exact h2 (List.elem_iff.mpr ht)
  · intro hnone
    rw [hfree]
    apply List.filter_eq_self.mpr
    intro s hs
    simp only [Bool.not_eq_true']
    rw [Bool.eq_false_iff]
    intro hcon
    have hmem := List.elem_iff.mp hcon
    simp only [takenSlots, List.mem_map, List.mem_filter, Bool.and_eq_true,
      beq_iff_eq] at hmem
    obtain ⟨b, ⟨hbmem, hbd, hbdev⟩, -⟩ := hmem
    exact hnone b hbmem ⟨hbd, hbdev⟩

/-- Witness for C6: with no bookings, the free list is the full slot list
(the third conjunct of the partition theorem at a concrete event). -/
theorem availability_partition_witness :
    getAvailableSlotsForDate
      { id := "E6", title := "Part", eventDates := ["2026-02-03"],
        slotDuration := 30, availableSlots := ["09:00", "09:30"],
        deviceIds := ["D1"], enabled := true }
      [] "2026-02-03" "D1" = ["09:00", "09:30"] :=
  (availability_partition
    { id := "E6", title := "Part", eventDates := ["2026-02-03"],
      slotDuration := 30, availableSlots := ["09:00", "09:30"],
      deviceIds := ["D1"], enabled := true }
    [] "2026-02-03" "D1" (by simp) (by decide) (by decide) (by decide)).2.2
    (by simp)

/-! ## Selection-state invariant (C10) -/

theorem clearOthers_deviceId_entry (deviceId date slot : String)
    (ids : List String) (f : String → Option DeviceSel) :
    clearOthers deviceId date slot ids f deviceId = f deviceId := by
  induction ids generalizing f with
  | nil => rfl
  | cons otherId rest ih =>
    simp only [clearOthers]
    by_cases ho : otherId = deviceId
    · rw [if_pos ho]
      exact ih f
    · rw [if_neg ho]
      cases hf : f otherId with
      | none => exact ih f
      | some o =>
        dsimp only
        split
        · rw [ih]
          exact Function.update_noteq (fun h => ho h.symm) _ _
        · exact ih f

theorem clearOthers_eq_self_or_cleared (deviceId date slot : String)
    (ids : List String) (f : String → Option DeviceSel) (e : String) :
    clearOthers deviceId date slot ids f e = f e ∨
      ∃ o, f e = some o ∧
        clearOthers deviceId date slot ids f e = some { o with slot := none } := by
  induction ids generalizing f with
  | nil => exact Or.inl rfl
  | cons otherId rest ih =>
    simp only [clearOthers]
    by_cases ho : otherId = deviceId
    · rw [if_pos ho]
      exact ih f
    · rw [if_neg ho]
      cases hf : f otherId with
      | none => exact ih f
      | some o =>
        dsimp only
        split
        · by_cases he : e = otherId
          · subst he
            rcases ih (Function.update f e (some { o with slot := none })) with
              h | ⟨o1, ho1, h⟩
            · rw [h, Function.update_same]
              exact Or.inr ⟨o, hf, rfl⟩
            · rw [Function.update_same] at ho1
              injection ho1 with ho1e
              refine Or.inr ⟨o, hf, ?_⟩
              rw [h, ← ho1e]
          · rcases ih (Function.update f otherId (some { o with slot := none })) with
              h | ⟨o1, ho1, h⟩
            · rw [h, Function.update_noteq he]
              exact Or.inl rfl
            · rw [Function.update_noteq he] at ho1
              exact Or.inr ⟨o1, ho1, h⟩
        · exact ih f

theorem clearOthers_no_match (deviceId date slot : String) (ids : List String) :
    ∀ (f : String → Option DeviceSel) (e : String), e ∈ ids → e ≠ deviceId →
      ∀ o, clearOthers deviceId date slot ids f e = some o →
        ¬(o.date = some date ∧ o.slot = some slot) := by
  induction ids with
  | nil =>
    intro f e hmem
    simp at hmem
  | cons otherId rest ih =>
    intro f e hmem hne o h
    rcases List.mem_cons.mp hmem with rfl | hmem2
    · simp only [clearOthers] at h
      rw [if_neg hne] at h
      cases hf : f e with
      | none =>
        rw [hf] at h
        dsimp only at h
        rcases clearOthers_eq_self_or_cleared deviceId date slot rest f e with
          hh | ⟨o1, ho1, hh⟩
        · rw [hh, hf] at h
          cases h
        · rw [hf] at ho1
          cases ho1
      | some o0 =>
        rw [hf] at h
        dsimp only at h
        by_cases hm : (o0.date == some date && o0.slot == some slot) = true
        · rw [if_pos hm] at h
          rcases clearOthers_eq_self_or_cleared deviceId date slot rest
              (Function.update f e (some { o0 with slot := none })) e with
            hh | ⟨o1, ho1, hh⟩
          · rw [hh, Function.update_same] at h
            injection h with h2
            rw [← h2]
            simp
          · rw [Function.update_same] at ho1
            injection ho1 with ho1e
            rw [hh] at h
            injection h with h2
            rw [← h2, ← ho1e]
            simp
        · rw [if_neg hm] at h
          rcases clearOthers_eq_self_or_cleared deviceId date slot rest f e with
            hh | ⟨o1, ho1, hh⟩
          · rw [hh, hf] at h
            injection h with h2
            rw [← h2]
            intro hcon
            apply hm
            simp [hcon.1, hcon.2]
          · rw [hf] at ho1
            injection ho1 with ho1e
            rw [hh] at h
            injection h with h2
            rw [← h2]
            simp
    · simp only [clearOthers] at h
      by_cases ho : otherId = deviceId
      · rw [if_pos ho] at h
        exact ih f e hmem2 hne o h
      · rw [if_neg ho] at h
        cases hf : f otherId with
        | none =>
          rw [hf] at h
          dsimp only at h
          exact ih f e hmem2 hne o h
        | some o0 =>
          rw [hf] at h
          dsimp only at h
          by_cases hm : (o0.date == some date && o0.slot == some slot) = true
          · rw [if_pos hm] at h
            exact ih _ e hmem2 hne o h
          · rw [if_neg hm] at h
            exact ih f e hmem2 hne o h

theorem handleDeviceSlotSelect_eq (st : SelState) (d sl : String) :
    handleDeviceSlotSelect st d sl =
      (if truthy ((st.sel d).getD { date := none, slot := none }).date then
        { st with sel :=
            (clearOthers d
              (((st.sel d).getD { date := none, slot := none }).date.getD "")
              sl st.ids
              (Function.update st.sel d
                (some { date := ((st.sel d).getD { date := none, slot := none }).date,
                        slot := some sl }))) }
      else
        { st with sel :=
            (Function.update st.sel d
              (some { date := ((st.sel d).getD { date := none, slot := none }).date,
                      slot := some sl })) }) := by
  unfold handleDeviceSlotSelect
  dsimp only
  rw [Function.update_same]

theorem selPair_of_complete {sel : String → Option DeviceSel} {e : String}
    {o : DeviceSel} {dt sl : String} (h : sel e = some o) (hd : o.date = some dt)
    (hs : o.slot = some sl) : selPair sel e = some (dt, sl) := by
  unfold selPair
  rw [h]
  dsimp only
  rw [hd, hs]

theorem selPair_some {sel : String → Option DeviceSel} {e : String}
    {p : String × String} (h : selPair sel e = some p) :
    ∃ o, sel e = some o ∧ o.date = some p.1 ∧ o.slot = some p.2 := by
  unfold selPair at h
  cases hsel : sel e with
  | none => rw [hsel] at h; cases h
  | some o =>
    rw [hsel] at h
    dsimp only at h
    cases hd : o.date with
    | none => rw [hd] at h; cases h
    | some dt =>
      cases hs : o.slot with
      | none => rw [hd, hs] at h; cases h
      | some sl =>
        rw [hd, hs] at h
        injection h with h2
        exact ⟨o, rfl, by rw [hd, ← h2], by rw [hs, ← h2]⟩

theorem selInv_slotSelect (st : SelState) (d sl : String)
    (h1 : SelDatesNonEmpty st) (h2 : ConflictFree st) :
    SelDatesNonEmpty (handleDeviceSlotSelect st d sl) ∧
      ConflictFree (handleDeviceSlotSelect st d sl) := by
  rw [handleDeviceSlotSelect_eq]
  set prev := (st.sel d).getD { date := none, slot := none } with hprev
  have hprev_date : ∀ dt, prev.date = some dt → dt.data ≠ [] := by
    intro dt hdt
    rw [hprev] at hdt
    cases hseld : st.sel d with
    | none => rw [hseld] at hdt; cases hdt
    | some s0 =>
      rw [hseld] at hdt
      simp only [Option.getD_some] at hdt
      exact h1 d s0 hseld dt hdt
  by_cases htr : truthy prev.date = true
  · rw [if_pos htr]
    obtain ⟨dt, hdt, -⟩ := truthy_eq_some htr
    have hgd : prev.date.getD "" = dt := by rw [hdt]; rfl
    rw [hgd]
    have hupd_d : Function.update st.sel d (some { prev with slot := some sl }) d =
        some { prev with slot := some sl } := Function.update_same _ _ _
    constructor
    · intro e s' hsel' dt' hdt'
      dsimp only at hsel'
      rcases clearOthers_eq_self_or_cleared d dt sl st.ids
          (Function.update st.sel d (some { prev with slot := some sl })) e with
        hh | ⟨o, hoe, hh⟩
      · rw [hh] at hsel'
        by_cases he : e = d
        · subst he
          rw [hupd_d] at hsel'
          injection hsel' with h3
          rw [← h3] at hdt'
          exact hprev_date dt' hdt'
        · rw [Function.update_noteq he] at hsel'
          exact h1 e s' hsel' dt' hdt'
      · rw [hh] at hsel'
        injection hsel' with h3
        rw [← h3] at hdt'
        simp only at hdt'
        by_cases he : e = d
        · subst he
          rw [hupd_d] at hoe
          injection hoe with h4
          rw [← h4] at hdt'
          exact hprev_date dt' hdt'
        · rw [Function.update_noteq he] at hoe
          exact h1 e o hoe dt' hdt'
    · intro d1 hm1 d2 hm2 hne p hp1 hp2
      dsimp only at hp1 hp2 hm1 hm2
      by_cases hd1 : d1 = d
      · subst hd1
        rw [show selPair (clearOthers d1 dt sl st.ids
            (Function.update st.sel d1 (some { prev with slot := some sl }))) d1 =
            some (dt, sl) from by
          unfold selPair
          rw [clearOthers_deviceId_entry, hupd_d]
          simp only [hdt]] at hp1
        injection hp1 with h3
        obtain ⟨o, hoe, hod, hos⟩ := selPair_some hp2
        refine clearOthers_no_match d1 dt sl st.ids _ d2 hm2 (fun h => hne h.symm)
          o hoe ?_
        rw [← h3] at hod hos
        exact ⟨hod, hos⟩
      · by_cases hd2 : d2 = d
        · subst hd2
          rw [show selPair (clearOthers d2 dt sl st.ids
              (Function.update st.sel d2 (some { prev with slot := some sl }))) d2 =
              some (dt, sl) from by
            unfold selPair
            rw [clearOthers_deviceId_entry, hupd_d]
            simp only [hdt]] at hp2
          injection hp2 with h3
          obtain ⟨o, hoe, hod, hos⟩ := selPair_some hp1
          refine clearOthers_no_match d2 dt sl st.ids _ d1 hm1 hd1 o hoe ?_
          rw [← h3] at hod hos
          exact ⟨hod, hos⟩
        · obtain ⟨o1, hoe1, hod1, hos1⟩ := selPair_some hp1
          obtain ⟨o2, hoe2, hod2, hos2⟩ := selPair_some hp2
          rcases clearOthers_eq_self_or_cleared d dt sl st.ids
              (Function.update st.sel d (some { prev with slot := some sl })) d1 with
            hh1 | ⟨oc1, -, hh1⟩
          · rcases clearOthers_eq_self_or_cleared d dt sl st.ids
                (Function.update st.sel d (some { prev with slot := some sl })) d2 with
              hh2 | ⟨oc2, -, hh2⟩
            · rw [hh1, Function.update_noteq hd1] at hoe1
              rw [hh2, Function.update_noteq hd2] at hoe2
              exact h2 d1 hm1 d2 hm2 hne p (selPair_of_complete hoe1 hod1 hos1)
                (selPair_of_complete hoe2 hod2 hos2)
            · rw [hh2] at hoe2
              injection hoe2 with h4
              rw [← h4] at hos2
              cases hos2
          · rw [hh1] at hoe1
            injection hoe1 with h4
            rw [← h4] at hos1
            cases hos1
  · rw [if_neg htr]
    have hdn : prev.date = none := by
      cases hd : prev.date with
      | none => rfl
      | some dt =>
        exfalso
        apply htr
        simp only [truthy, truthyStr, hd, Bool.not_eq_true']
        have := hprev_date dt hd
        simpa [List.isEmpty_iff] using this
    constructor
    · intro e s' hsel' dt' hdt'
      dsimp only at hsel'
      by_cases he : e = d
      · subst he
        rw [Function.update_same] at hsel'
        injection hsel' with h3
        rw [← h3] at hdt'
        simp only at hdt'
        rw [hdn] at hdt'
        cases hdt'
      · rw [Function.update_noteq he] at hsel'
        exact h1 e s' hsel' dt' hdt'
    · intro d1 hm1 d2 hm2 hne p hp1 hp2
      dsimp only at hp1 hp2 hm1 hm2
      by_cases hd1 : d1 = d
      · subst hd1
        obtain ⟨o, hoe, hod, -⟩ := selPair_some hp1
        rw [Function.update_same] at hoe
        injection hoe with h3
        rw [← h3] at hod
        simp only at hod
        rw [hdn] at hod
        cases hod
      · by_cases hd2 : d2 = d
        · subst hd2
          obtain ⟨o, hoe, hod, -⟩ := selPair_some hp2
          rw [Function.update_same] at hoe
          injection hoe with h3
          rw [← h3] at hod
          simp only at hod
          rw [hdn] at hod
          cases hod
        · obtain ⟨o1, hoe1, hod1, hos1⟩ := selPair_some hp1
          obtain ⟨o2, hoe2, hod2, hos2⟩ := selPair_some hp2
          rw [Function.update_noteq hd1] at hoe1
          rw [Function.update_noteq hd2] at hoe2
          exact h2 d1 hm1 d2 hm2 hne p (selPair_of_complete hoe1 hod1 hos1)
            (selPair_of_complete hoe2 hod2 hos2)

theorem selInv_select (st : SelState) (d : String)
    (h1 : SelDatesNonEmpty st) (h2 : ConflictFree st) :
    SelDatesNonEmpty (handleDeviceSelect st d) ∧
      ConflictFree (handleDeviceSelect st d) := by
  unfold handleDeviceSelect
  by_cases hmem : d ∈ st.ids
  · rw [if_pos hmem]
    constructor
    · intro e s' hsel' dt hdt
      dsimp only at hsel'
      by_cases he : e = d
      · subst he
        rw [Function.update_same] at hsel'
        cases hsel'
      · rw [Function.update_noteq he] at hsel'
        exact h1 e s' hsel' dt hdt
    · intro d1 hm1 d2 hm2 hne p hp1
      dsimp only at hp1 hm1 hm2 ⊢
      rw [List.mem_filter] at hm1 hm2
      have hd1 : d1 ≠ d := by simpa using hm1.2
      have hd2 : d2 ≠ d := by simpa using hm2.2
      have e1 : selPair (Function.update st.sel d none) d1 = selPair st.sel d1 := by
        unfold selPair
        rw [Function.update_noteq hd1]
      have e2 : selPair (Function.update st.sel d none) d2 = selPair st.sel d2 := by
        unfold selPair
        rw [Function.update_noteq hd2]
      rw [e1] at hp1
      rw [e2]
      exact h2 d1 hm1.1 d2 hm2.1 hne p hp1
  · rw [if_neg hmem]
    constructor
    · intro e s' hsel' dt hdt
      dsimp only at hsel'
      by_cases he : e = d
      · subst he
        rw [Function.update_same] at hsel'
        injection hsel' with h3
        rw [← h3] at hdt
        cases hdt
      · rw [Function.update_noteq he] at hsel'
        exact h1 e s' hsel' dt hdt
    · intro d1 hm1 d2 hm2 hne p hp1
      dsimp only at hp1 hm1 hm2 ⊢
      rw [List.mem_append] at hm1 hm2
      have hnone : selPair (Function.update st.sel d
          (some { date := none, slot := none })) d = none := by
        unfold selPair
        rw [Function.update_same]
      by_cases hd1 : d1 = d
      · subst hd1
        rw [hnone] at hp1
        cases hp1
      · by_cases hd2 : d2 = d
        · subst hd2
          rw [hnone]
          simp
        · have e1 : selPair (Function.update st.sel d
              (some { date := none, slot := none })) d1 = selPair st.sel d1 := by
            unfold selPair
            rw [Function.update_noteq hd1]
          have e2 : selPair (Function.update st.sel d
              (some { date := none, slot := none })) d2 = selPair st.sel d2 := by
            unfold selPair
            rw [Function.update_noteq hd2]
          have hm1b : d1 ∈ st.ids := by
            rcases hm1 with h | h
            · exact h
            · simp only [List.mem_singleton] at h
              exact absurd h hd1
          have hm2b : d2 ∈ st.ids := by
            rcases hm2 with h | h
            · exact h
            · simp only [List.mem_singleton] at h
              exact absurd h hd2
          rw [e1] at hp1
          rw [e2]
          exact h2 d1 hm1b d2 hm2b hne p hp1

theorem selInv_dateSelect (st : SelState) (d dtv : String) (hv : dtv.data ≠ [])
    (h1 : SelDatesNonEmpty st) (h2 : ConflictFree st) :
    SelDatesNonEmpty (handleDeviceDateSelect st d dtv) ∧
      ConflictFree (handleDeviceDateSelect st d dtv) := by
  unfold handleDeviceDateSelect
  constructor
  · intro e s' hsel' dt hdt
    dsimp only at hsel'
    by_cases he : e = d
    · subst he
      rw [Function.update_same] at hsel'
      injection hsel' with h3
      rw [← h3] at hdt
      simp only at hdt
      injection hdt with h4
      rw [← h4]
      exact hv
    · rw [Function.update_noteq he] at hsel'
      exact h1 e s' hsel' dt hdt
  · intro d1 hm1 d2 hm2 hne p hp1
    dsimp only at hp1 hm1 hm2 ⊢
    have hnone : selPair (Function.update st.sel d
        (some { date := some dtv, slot := none })) d = none := by
      unfold selPair
      rw [Function.update_same]
    by_cases hd1 : d1 = d
    · subst hd1
      rw [hnone] at hp1
      cases hp1
    · by_cases hd2 : d2 = d
      · subst hd2
        rw [hnone]
        simp
      · have e1 : selPair (Function.update st.sel d
            (some { date := some dtv, slot := none })) d1 = selPair st.sel d1 := by
          unfold selPair
          rw [Function.update_noteq hd1]
        have e2 : selPair (Function.update st.sel d
            (some { date := some dtv, slot := none })) d2 = selPair st.sel d2 := by
          unfold selPair
          rw [Function.update_noteq hd2]
        rw [e1] at hp1
        rw [e2]
        exact h2 d1 hm1 d2 hm2 hne p hp1

theorem selInv_applySelOp (st : SelState) (op : SelOp) (hv : op.valid)
    (h1 : SelDatesNonEmpty st) (h2 : ConflictFree st) :
    SelDatesNonEmpty (applySelOp st op) ∧ ConflictFree (applySelOp st op) := by
  cases op with
  | select d => exact selInv_select st d h1 h2
  | dateSelect d dtv => exact selInv_dateSelect st d dtv hv h1 h2
  | slotSelect d sl => exact selInv_slotSelect st d sl h1 h2

theorem selInv_runSelOps (st : SelState) (ops : List SelOp)
    (hv : ∀ op ∈ ops, op.valid) (h1 : SelDatesNonEmpty st) (h2 : ConflictFree st) :
    SelDatesNonEmpty (runSelOps st ops) ∧ ConflictFree (runSelOps st ops) := by
  induction ops generalizing st with
  | nil => exact ⟨h1, h2⟩
  | cons op rest ih =>
    unfold runSelOps
    obtain ⟨g1, g2⟩ := selInv_applySelOp st op (hv op (List.mem_cons_self _ _)) h1 h2
    exact ih _ (fun o ho => hv o (List.mem_cons_of_mem _ ho)) g1 g2

/-- C10: starting from the initial page state, after any sequence of
device select/deselect, per-device date-select (with the non-empty date
strings the page offers), and per-device slot-select operations, no two
selected devices hold the same complete (date, slot) pair: selecting a
slot clears that (date, slot) from every other selected device with the
same date, and selecting a date resets that device's slot to null. -/
theorem selection_state_invariant (ops : List SelOp)
    (hv : ∀ op ∈ ops, op.valid) :
    ConflictFree (runSelOps initSelState ops) :=
  (selInv_runSelOps initSelState ops hv
    (by intro d s h; simp [initSelState] at h)
    (by intro d1 h; simp [initSelState] at h)).2

/-- Witness for C10: the op sequence of Scenario B (both devices driven to
the same date and slot); the final state is conflict-free because the
second slot selection cleared the first device's slot. -/
theorem selection_state_invariant_witness :
    ConflictFree (runSelOps initSelState
      [SelOp.select "D1", SelOp.select "D2",
       SelOp.dateSelect "D1" "2026-02-03", SelOp.slotSelect "D1" "09:00",
       SelOp.dateSelect "D2" "2026-02-03", SelOp.slotSelect "D2" "09:00"]) :=
  selection_state_invariant _ (by
    intro op hop
    fin_cases hop <;>
      first
        | trivial
        | exact (by decide : ("2026-02-03" : String).data ≠ []))

/-! ## Slot generator lemmas (C4, C5) -/

theorem generateTimeSlotsFuel_succ (fuel : Nat) (m e d : Int) :
    generateTimeSlotsFuel (fuel + 1) m e d =
      if m < e then
        (generateTimeSlotsFuel fuel (m + d) e d).map
          (fun rest => slotLabel m :: rest)
      else some [] := rfl

theorem generateTimeSlotsFuel_mono {fuel : Nat} {m e d : Int} {l : List String}
    (h : generateTimeSlotsFuel fuel m e d = some l) :
    generateTimeSlotsFuel (fuel + 1) m e d = some l := by
  induction fuel generalizing m l with
  | zero => cases h
  | succ n ih =>
    rw [generateTimeSlotsFuel_succ] at h
    rw [generateTimeSlotsFuel_succ]
    split at h
    · next hlt =>
      rw [if_pos hlt]
      cases hr : generateTimeSlotsFuel n (m + d) e d with
      | none => rw [hr] at h; simp at h
      | some l0 =>
        rw [hr] at h
        rw [ih hr]
        exact h
    · next hlt =>
      rw [if_neg hlt]
      exact h

theorem generateTimeSlotsFuel_mono_le {f1 f2 : Nat} {m e d : Int} {l : List String}
    (hle : f1 ≤ f2) (h : generateTimeSlotsFuel f1 m e d = some l) :
    generateTimeSlotsFuel f2 m e d = some l := by
  induction hle with
  | refl => exact h
  | step h2 ih => exact generateTimeSlotsFuel_mono ih

theorem fdiv_ofNat_sixty (a : Nat) :
    Int.fdiv (Int.ofNat a) 60 = Int.ofNat (a / 60) := by
  cases a with
  | zero => rfl
  | succ n => rfl

theorem tmod_ofNat_sixty (a : Nat) :
    Int.tmod (Int.ofNat a) 60 = Int.ofNat (a % 60) := by
  cases a with
  | zero => rfl
  | succ n => rfl

theorem jsPadStart2_repr : ∀ n, n < 100 →
    jsPadStart2 (Nat.repr n) =
      String.mk [Nat.digitChar (n / 10), Nat.digitChar (n % 10)] := by
  decide

theorem slotLabel_ofNat (m : Nat) (hm : m < 6000) :
    slotLabel (Int.ofNat m) = hhmm m := by
  unfold slotLabel hhmm
  rw [fdiv_ofNat_sixty, tmod_ofNat_sixty]
  rw [show toString (Int.ofNat (m / 60)) = Nat.repr (m / 60) from rfl]
  rw [show toString (Int.ofNat (m % 60)) = Nat.repr (m % 60) from rfl]
  rw [jsPadStart2_repr (m / 60) (by omega), jsPadStart2_repr (m % 60) (by omega)]
  rfl

theorem digitChar_lt : ∀ a, a < 10 → ∀ b, b < 10 → a < b →
    Nat.digitChar a < Nat.digitChar b := by
  decide

theorem two_digit_lex (a b : Nat) (ha : a < 100) (hb : b < 100) (hab : a < b)
    (r1 r2 : List Char) :
    List.Lex (· < ·) (Nat.digitChar (a / 10) :: Nat.digitChar (a % 10) :: r1)
      (Nat.digitChar (b / 10) :: Nat.digitChar (b % 10) :: r2) := by
  have ht : a / 10 ≤ b / 10 := Nat.div_le_div_right (le_of_lt hab)
  rcases lt_or_eq_of_le ht with h | h
  · exact List.Lex.rel (digitChar_lt (a / 10) (by omega) (b / 10) (by omega) h)
  · rw [h]
    apply List.Lex.cons
    have ho : a % 10 < b % 10 := by omega
    exact List.Lex.rel (digitChar_lt (a % 10) (by omega) (b % 10) (by omega) ho)

theorem string_lt_iff_lex (s t : String) :
    s < t ↔ List.Lex (· < ·) s.data t.data := by
  rw [String.lt_iff_toList_lt]
  exact Iff.rfl

theorem hhmm_lt (m1 m2 : Nat) (h12 : m1 < m2) (hm2 : m2 < 6000) :
    hhmm m1 < hhmm m2 := by
  rw [string_lt_iff_lex]
  show List.Lex (· < ·)
    [Nat.digitChar (m1 / 60 / 10), Nat.digitChar (m1 / 60 % 10), ':',
      Nat.digitChar (m1 % 60 / 10), Nat.digitChar (m1 % 60 % 10)]
    [Nat.digitChar (m2 / 60 / 10), Nat.digitChar (m2 / 60 % 10), ':',
      Nat.digitChar (m2 % 60 / 10), Nat.digitChar (m2 % 60 % 10)]
  have hh : m1 / 60 ≤ m2 / 60 := Nat.div_le_div_right (le_of_lt h12)
  rcases lt_or_eq_of_le hh with h | h
  · exact two_digit_lex (m1 / 60) (m2 / 60) (by omega) (by omega) h _ _
  · rw [h]
    apply List.Lex.cons
    apply List.Lex.cons
    apply List.Lex.cons
    have hmm : m1 % 60 < m2 % 60 := by omega
    exact two_digit_lex (m1 % 60) (m2 % 60) (by omega) (by omega) hmm [] []

theorem slotClosedForm_stop (s e d : Nat) (hd : 0 < d) (hse : e ≤ s) :
    slotClosedForm s e d = [] := by
  unfold slotClosedForm
  have h0 : (e - s + d - 1) / d = 0 := Nat.div_eq_of_lt (by omega)
  rw [h0]
  rfl

theorem slotClosedForm_cons (s e d : Nat) (hd : 0 < d) (hse : s < e) :
    slotClosedForm s e d =
      slotLabel (Int.ofNat s) :: slotClosedForm (s + d) e d := by
  unfold slotClosedForm
  have hn : (e - s + d - 1) / d = (e - (s + d) + d - 1) / d + 1 := by
    have h1 : e - s + d - 1 = (e - s - 1) + d := by omega
    rw [h1, Nat.add_div_right _ hd]
    by_cases hc : d ≤ e - s
    · have h2 : e - (s + d) + d - 1 = e - s - 1 := by omega
      rw [h2]
    · have h2 : e - (s + d) + d - 1 = d - 1 := by omega
      rw [h2]
      have h3 : (d - 1) / d = 0 := Nat.div_eq_of_lt (by omega)
      have h4 : (e - s - 1) / d = 0 := Nat.div_eq_of_lt (by omega)
      rw [h3, h4]
  rw [hn, List.range_succ_eq_map]
  simp only [List.map_cons, List.map_map]
  congr 1
  · have h5 : s + 0 * d = s := by ring
    rw [h5]
  · apply List.map_congr_left
    intro k hk
    simp only [Function.comp_apply, Nat.succ_eq_add_one]
    congr 2
    ring

theorem generateTimeSlotsFuel_pos (d : Nat) (hd : 0 < d) :
    ∀ D s e : Nat, e - s ≤ D →
      generateTimeSlotsFuel (D + 1) (Int.ofNat s) (Int.ofNat e) (Int.ofNat d) =
        some (slotClosedForm s e d) := by
  intro D
  induction D with
  | zero =>
    intro s e hD
    rw [generateTimeSlotsFuel_succ,
      if_neg (by simp only [Int.ofNat_eq_coe]; omega),
      slotClosedForm_stop s e d hd (by omega)]
  | succ D ih =>
    intro s e hD
    by_cases hse : s < e
    · rw [generateTimeSlotsFuel_succ,
        if_pos (by simp only [Int.ofNat_eq_coe]; omega)]
      have hadd : Int.ofNat s + Int.ofNat d = Int.ofNat (s + d) := by
        simp only [Int.ofNat_eq_coe]
        omega
      rw [hadd, ih (s + d) e (by omega), slotClosedForm_cons s e d hd hse]
      rfl
    · rw [generateTimeSlotsFuel_succ,
        if_neg (by simp only [Int.ofNat_eq_coe]; omega),
        slotClosedForm_stop s e d hd (by omega)]

/-- C4: for any start and end minute-of-day with start < end (end at most
24:00) and any positive duration, the generateTimeSlots loop completes
(with e - s + 1 iterations of fuel) and returns the closed-form list:
ceil((e - s) / d) labels, the k-th being the zero-padded 24-hour HH:MM
rendering of s + k * d minutes, strictly increasing with no
duplicates. -/
theorem slot_generator_closed_form (s e d : Nat) (hse : s < e) (he : e ≤ 1440)
    (hd : 0 < d) :
    generateTimeSlotsFuel (e - s + 1) (Int.ofNat s) (Int.ofNat e) (Int.ofNat d) =
      some (slotClosedForm s e d) ∧
    (slotClosedForm s e d).length = (e - s + d - 1) / d ∧
    (∀ k, k < (e - s + d - 1) / d →
      (slotClosedForm s e d)[k]? = some (hhmm (s + k * d))) ∧
    List.Pairwise (· < ·) (slotClosedForm s e d) ∧
    (slotClosedForm s e d).Nodup := by
  have hbound : ∀ k, k < (e - s + d - 1) / d → s + k * d < e := by
    intro k hk
    have h1 : e - s + d - 1 = (e - s - 1) + d := by omega
    have h2 : (e - s + d - 1) / d = (e - s - 1) / d + 1 := by
      rw [h1, Nat.add_div_right _ hd]
    have h3 : k ≤ (e - s - 1) / d := by omega
    have h4 : k * d ≤ (e - s - 1) / d * d := Nat.mul_le_mul_right d h3
    have h5 : (e - s - 1) / d * d ≤ e - s - 1 := Nat.div_mul_le_self _ _
    omega
  have hlen : (slotClosedForm s e d).length = (e - s + d - 1) / d := by
    unfold slotClosedForm
    rw [List.length_map, List.length_range]
  have hget : ∀ (k : Nat) (hk : k < (slotClosedForm s e d).length),
      (slotClosedForm s e d)[k] = hhmm (s + k * d) := by
    intro k hk
    have hk2 : k < (e - s + d - 1) / d := by rw [← hlen]; exact hk
    unfold slotClosedForm
    rw [List.getElem_map, List.getElem_range]
    exact slotLabel_ofNat (s + k * d) (by have := hbound k hk2; omega)
  have hpw : List.Pairwise (· < ·) (slotClosedForm s e d) := by
    rw [List.pairwise_iff_getElem]
    intro i j hi hj hij
    rw [hget i hi, hget j hj]
    have hib : i < (e - s + d - 1) / d := by rw [← hlen]; exact hi
    have hjb : j < (e - s + d - 1) / d := by rw [← hlen]; exact hj
    apply hhmm_lt
    · have h7 : i * d < j * d := Nat.mul_lt_mul_of_pos_right hij hd
      omega
    · have := hbound j hjb
      omega
  refine ⟨generateTimeSlotsFuel_pos d hd (e - s) s e (le_refl _), hlen, ?_, hpw,
    hpw.imp ne_of_lt⟩
  intro k hk
  have hk2 : k < (slotClosedForm s e d).length := by rw [hlen]; exact hk
  rw [List.getElem?_eq_getElem hk2, hget k hk2]

/-- Witness for C4: the closed form at 09:00 to 10:00 with 25-minute
slots. -/
theorem slot_generator_closed_form_witness :
    generateTimeSlotsFuel (600 - 540 + 1) (Int.ofNat 540) (Int.ofNat 600)
        (Int.ofNat 25) = some (slotClosedForm 540 600 25) :=
  (slot_generator_closed_form 540 600 25 (by omega) (by omega) (by omega)).1

theorem generateTimeSlots_nonpos_duration_diverges (d : Int) (hd : d ≤ 0) :
    ∀ (fuel : Nat) (m e : Int), m < e → generateTimeSlotsFuel fuel m e d = none := by
  intro fuel
  induction fuel with
  | zero => intro m e h; rfl
  | succ n ih =>
    intro m e h
    rw [generateTimeSlotsFuel_succ, if_pos h, ih (m + d) e (by omega)]
    rfl

/-- Counterexample for C5: with duration 0 and the range 09:00 to 09:30,
the generateTimeSlots loop never terminates — no number of iterations
produces the empty list (or any list at all), refuting that the function
produces an empty sequence for every degenerate input. -/
theorem slot_generator_degenerate_counterexample :
    ¬ ∃ fuel : Nat, generateTimeSlotsFuel fuel 540 570 0 = some [] := by
  rintro ⟨fuel, h⟩
  rw [generateTimeSlots_nonpos_duration_diverges 0 (by omega) fuel 540 570
    (by omega)] at h
  cases h

/-- C5 (amended): when start ≥ end the loop exits at once with the empty
list (for any duration, already on one unit of fuel); but when
duration ≤ 0 and start < end the loop never terminates — it does not
produce an empty sequence. -/
theorem slot_generator_degenerate_amended (s e d : Int) :
    (e ≤ s → ∀ fuel : Nat, 1 ≤ fuel →
      generateTimeSlotsFuel fuel s e d = some []) ∧
    (d ≤ 0 → s < e → ∀ fuel : Nat, generateTimeSlotsFuel fuel s e d = none) := by
  constructor
  · intro hse fuel hf
    cases fuel with
    | zero => omega
    | succ n => rw [generateTimeSlotsFuel_succ, if_neg (by omega)]
  · intro hd hse fuel
    exact generateTimeSlots_nonpos_duration_diverges d hd fuel s e hse

/-- Witness for the amended C5: an inverted range returns the empty
list. -/
theorem slot_generator_degenerate_amended_witness :
    generateTimeSlotsFuel 1 600 540 30 = some [] :=
  (slot_generator_degenerate_amended 600 540 30).1 (by omega) 1 (by omega)

/-- The selection handlers keep the selected-device list duplicate-free,
which is why a submission carries each selected device once (the Nodup
hypothesis of the slot-uniqueness theorem). -/
theorem applySelOp_ids_nodup (st : SelState) (op : SelOp) (h : st.ids.Nodup) :
    (applySelOp st op).ids.Nodup := by
  cases op with
  | select d =>
    show (handleDeviceSelect st d).ids.Nodup
    unfold handleDeviceSelect
    by_cases hmem : d ∈ st.ids
    · rw [if_pos hmem]
      exact h.filter _
    · rw [if_neg hmem]
      dsimp only
      rw [List.nodup_append]
      refine ⟨h, by simp, ?_⟩
      intro a ha had
      simp only [List.mem_singleton] at had
      exact hmem (had ▸ ha)
  | dateSelect d dt =>
    simpa [applySelOp, handleDeviceDateSelect] using h
  | slotSelect d sl =>
    show (handleDeviceSlotSelect st d sl).ids.Nodup
    have hids : (handleDeviceSlotSelect st d sl).ids = st.ids := by
      rw [handleDeviceSlotSelect_eq]
      split <;> rfl
    rw [hids]
    exact h

theorem runSelOps_ids_nodup (ops : List SelOp) :
    (runSelOps initSelState ops).ids.Nodup := by
  have haux : ∀ (st : SelState), st.ids.Nodup → (runSelOps st ops).ids.Nodup := by
    induction ops with
    | nil => intro st h; exact h
    | cons op rest ih =>
      intro st h
      exact ih _ (applySelOp_ids_nodup st op h)
  exact haux initSelState (by simp [initSelState])
